import Mathlib

/-!
Shallow embedding of the Conway Game of Life simulation core in src/main.c.

The mutable program state (cell liveness, drag anchor, play flags, the
fixed-timestep accumulator) is modelled by explicit state passing; machine
floats (`double`, SDL float rectangles) are modelled by exact rationals; the
SDL performance counter readings are inputs to the clock function.  The grid
topology (neighbor pointers) is written only during `SDL_AppInit` in the
source and never mutated afterwards, so it is embedded as a pure function of
the coordinates.
-/

/-- Grid width, `GRID_SIZE_X` in src/main.c. -/
def GRID_SIZE_X : Nat := 40

/-- Grid height, `GRID_SIZE_Y` in src/main.c. -/
def GRID_SIZE_Y : Nat := 40

/-- Number of neighbors per cell, `NUM_CELL_NEIGHBORS` in src/main.c. -/
def NUM_CELL_NEIGHBORS : Nat := 8

/-- A cell identity: its `(x, y)` coordinates, in bounds by construction. -/
abbrev Coord := Fin GRID_SIZE_X × Fin GRID_SIZE_Y

/-- The mutable part of `g_map.cellMap`: each cell's `isAlive` field. -/
abbrev CellMap := Fin GRID_SIZE_X → Fin GRID_SIZE_Y → Bool

/-- The wrapped left-neighbor column index, src/main.c line 128:
`i - 1 < 0 ? GRID_SIZE_X - 1 : i - 1`. -/
def leftNeighborIndex (i : Fin GRID_SIZE_X) : Fin GRID_SIZE_X :=
  if i.val = 0 then ⟨GRID_SIZE_X - 1, by decide⟩
  else ⟨i.val - 1, by have := i.isLt; omega⟩

/-- The wrapped right-neighbor column index, src/main.c line 129:
`i + 1 >= GRID_SIZE_X ? 0 : i + 1`. -/
def rightNeighborIndex (i : Fin GRID_SIZE_X) : Fin GRID_SIZE_X :=
  if h : i.val + 1 ≥ GRID_SIZE_X then ⟨0, by decide⟩
  else ⟨i.val + 1, by omega⟩

/-- The wrapped top-neighbor row index, src/main.c line 130. -/
def topNeighborIndex (j : Fin GRID_SIZE_Y) : Fin GRID_SIZE_Y :=
  if j.val = 0 then ⟨GRID_SIZE_Y - 1, by decide⟩
  else ⟨j.val - 1, by have := j.isLt; omega⟩

/-- The wrapped bottom-neighbor row index, src/main.c line 131. -/
def bottomNeighborIndex (j : Fin GRID_SIZE_Y) : Fin GRID_SIZE_Y :=
  if h : j.val + 1 ≥ GRID_SIZE_Y then ⟨0, by decide⟩
  else ⟨j.val + 1, by omega⟩

/-- The neighbor list of cell `(i, j)`, in the order the init loop stores it
(src/main.c lines 132-141): left, left-top, left-bottom, right, right-top,
right-bottom, top, bottom. -/
def neighbors (i : Fin GRID_SIZE_X) (j : Fin GRID_SIZE_Y) : List Coord :=
  [(leftNeighborIndex i, j),
   (leftNeighborIndex i, topNeighborIndex j),
   (leftNeighborIndex i, bottomNeighborIndex j),
   (rightNeighborIndex i, j),
   (rightNeighborIndex i, topNeighborIndex j),
   (rightNeighborIndex i, bottomNeighborIndex j),
   (i, topNeighborIndex j),
   (i, bottomNeighborIndex j)]

/-- `getNumLiveNeighbors` (src/main.c lines 270-278): counts the live cells
among the 8 stored neighbors. -/
def getNumLiveNeighbors (g : CellMap) (i : Fin GRID_SIZE_X) (j : Fin GRID_SIZE_Y) : Nat :=
  (neighbors i j).countP (fun c => g c.1 c.2)

/-- The traversal order of both nested `for` loops over the grid
(`j` outer, `i` inner), as used by `simulateConwayIteration`,
`handleSimulationReset` and `getCellUnderPoint`. -/
def cellOrder : List Coord :=
  (List.finRange GRID_SIZE_Y).flatMap
    (fun j => (List.finRange GRID_SIZE_X).map (fun i => (i, j)))

/-- Writing one cell's `isAlive` field. -/
def writeCell (g : CellMap) (c : Coord) (b : Bool) : CellMap :=
  fun a d => if (a, d) = c then b else g a d

/-- Writing the same `isAlive` value to every cell of a list in order, as the
update loops at src/main.c lines 320-325 do to the staged arrays. -/
def writeAll (g : CellMap) (l : List Coord) (b : Bool) : CellMap :=
  l.foldl (fun g2 c => writeCell g2 c b) g

/-- The staging test for rules 1 and 3 (src/main.c line 307): a live cell
with fewer than 2 or more than 3 live neighbors is staged for death. -/
def shouldDie (g : CellMap) (c : Coord) : Bool :=
  g c.1 c.2 &&
    (decide (getNumLiveNeighbors g c.1 c.2 < 2) || decide (getNumLiveNeighbors g c.1 c.2 > 3))

/-- The staging test for rule 4 (src/main.c line 312): a dead cell with
exactly 3 live neighbors is staged for birth. -/
def shouldBirth (g : CellMap) (c : Coord) : Bool :=
  !(g c.1 c.2) && decide (getNumLiveNeighbors g c.1 c.2 = 3)

/-- `simulateConwayIteration` (src/main.c lines 280-326): one scan stages the
cells to birth and to kill against the pre-advance state (the two staging
tests are mutually exclusive, so the `else if` chain and the two filters
select the same cells), then the staged births are applied and afterwards the
staged deaths. -/
def simulateConwayIteration (g : CellMap) : CellMap :=
  writeAll (writeAll g (cellOrder.filter (shouldBirth g)) true)
    (cellOrder.filter (shouldDie g)) false

/-- The Conway rule as the spec states it (spec section 4.2), written pointwise for
comparison with the staged implementation: a live cell with fewer than 2 or
more than 3 live neighbors becomes dead, a dead cell with exactly 3 live
neighbors becomes alive, every other cell keeps its state; every count is
taken on the pre-advance grid. -/
def conwayRuleNext (g : CellMap) (i : Fin GRID_SIZE_X) (j : Fin GRID_SIZE_Y) : Bool :=
  if g i j then
    !(decide (getNumLiveNeighbors g i j < 2) || decide (getNumLiveNeighbors g i j > 3))
  else
    decide (getNumLiveNeighbors g i j = 3)

/-- Wraparound of a column offset as the spec words it (spec section 3):
coordinate `-1` maps to `W-1`, coordinate `W` maps to `0`; written as the
nonnegative remainder mod the width. -/
def wrapX (k : Int) : Fin GRID_SIZE_X :=
  ⟨(k % (GRID_SIZE_X : Int)).toNat, by simp only [GRID_SIZE_X]; omega⟩

/-- Wraparound of a row offset as the spec words it (spec section 3). -/
def wrapY (k : Int) : Fin GRID_SIZE_Y :=
  ⟨(k % (GRID_SIZE_Y : Int)).toNat, by simp only [GRID_SIZE_Y]; omega⟩

/-- The toroidal Moore neighborhood of `(i, j)` as the spec describes it, in
the spec's fixed order left, left-top, left-bottom, right, right-top,
right-bottom, top, bottom (spec section 3), for comparison with the stored
neighbor lists. -/
def mooreNeighborhood (i : Fin GRID_SIZE_X) (j : Fin GRID_SIZE_Y) : List Coord :=
  [(wrapX ((i.val : Int) - 1), wrapY (j.val : Int)),
   (wrapX ((i.val : Int) - 1), wrapY ((j.val : Int) - 1)),
   (wrapX ((i.val : Int) - 1), wrapY ((j.val : Int) + 1)),
   (wrapX ((i.val : Int) + 1), wrapY (j.val : Int)),
   (wrapX ((i.val : Int) + 1), wrapY ((j.val : Int) - 1)),
   (wrapX ((i.val : Int) + 1), wrapY ((j.val : Int) + 1)),
   (wrapX (i.val : Int), wrapY ((j.val : Int) - 1)),
   (wrapX (i.val : Int), wrapY ((j.val : Int) + 1))]

/-- Window width, `MAX_WIDTH` in src/main.c. -/
def MAX_WIDTH : ℚ := 800

/-- Gap between rendered cells, `GRID_GAP` in src/main.c. -/
def GRID_GAP : ℚ := 1

/-- Rendered cell width, the `CELL_WIDTH` macro (src/main.c line 33). -/
def CELL_WIDTH : ℚ := MAX_WIDTH / (GRID_SIZE_X : ℚ) - GRID_GAP

/-- Rendered cell height, the `CELL_HEIGHT` macro (src/main.c line 34, which
also divides `MAX_WIDTH`, not `MAX_HEIGHT`). -/
def CELL_HEIGHT : ℚ := MAX_WIDTH / (GRID_SIZE_Y : ℚ) - GRID_GAP

/-- An SDL float rectangle, with exact rational coordinates. -/
structure FRect where
  x : ℚ
  y : ℚ
  w : ℚ
  h : ℚ

/-- The rectangle stored for cell `(i, j)` by the init loop
(src/main.c lines 115-118). -/
def cellFRect (i : Fin GRID_SIZE_X) (j : Fin GRID_SIZE_Y) : FRect :=
  { x := GRID_GAP / 2 + (i.val : ℚ) * (CELL_WIDTH + GRID_GAP)
    y := GRID_GAP / 2 + (j.val : ℚ) * (CELL_HEIGHT + GRID_GAP)
    w := CELL_WIDTH
    h := CELL_HEIGHT }

/-- Modelled from the spec: the geometry lookup's containment test is an
external collaborator (spec section 6, SDL's point-in-rect test on float
rectangles, not part of this repository); a point is inside a rectangle when
it lies within the closed bounds on both axes. -/
def SDL_PointInRectFloat (px py : ℚ) (r : FRect) : Bool :=
  decide (r.x ≤ px) && decide (px ≤ r.x + r.w) &&
    decide (r.y ≤ py) && decide (py ≤ r.y + r.h)

/-- `getCellUnderPoint` (src/main.c lines 173-185): scan the grid in loop
order and return the first cell whose rectangle contains the point, if any. -/
def getCellUnderPoint (x y : ℚ) : Option Coord :=
  cellOrder.find? (fun c => SDL_PointInRectFloat x y (cellFRect c.1 c.2))

/-- The `CellSetAction` enumeration (src/main.c lines 167-171). -/
inductive CellSetAction where
  | CELL_SET_ALIVE : CellSetAction
  | CELL_SET_DEAD : CellSetAction
  | CELL_TOGGLE : CellSetAction

/-- `setCellUnderPoint` (src/main.c lines 187-205): no-op when no cell is
under the point, otherwise apply the action to that cell. -/
def setCellUnderPoint (g : CellMap) (x y : ℚ) (action : CellSetAction) : CellMap :=
  match getCellUnderPoint x y with
  | none => g
  | some c =>
    match action with
    | CellSetAction.CELL_SET_ALIVE => writeCell g c true
    | CellSetAction.CELL_SET_DEAD => writeCell g c false
    | CellSetAction.CELL_TOGGLE => writeCell g c (!(g c.1 c.2))

/-- The simulation-facing mutable state: the orchestrator flags of
`SimulationSystem`, the drag anchor `g_map.dragStartCell`, and the cell
liveness of `g_map.cellMap`. -/
structure AppState where
  isPlaying : Bool
  shouldRunFrame : Bool
  dragStartCell : Option Coord
  cellMap : CellMap

/-- `SDL_BUTTON_LEFT`. -/
def SDL_BUTTON_LEFT : Nat := 1

/-- `SDL_BUTTON_LMASK`, the motion-event button mask for the left button. -/
def SDL_BUTTON_LMASK : Nat := 1

/-- `SDLK_P`. -/
def SDLK_P : Nat := 112

/-- `SDLK_PERIOD`. -/
def SDLK_PERIOD : Nat := 46

/-- `SDLK_R`. -/
def SDLK_R : Nat := 114

/-- `handleDragStart` (src/main.c lines 209-211): record the cell under the
pointer (possibly none) as the drag anchor. -/
def handleDragStart (s : AppState) (x y : ℚ) : AppState :=
  { s with dragStartCell := getCellUnderPoint x y }

/-- `handleDragMotion` (src/main.c lines 215-222): no-op without an anchor;
otherwise paint the cell under the pointer with the anchor's current
liveness. -/
def handleDragMotion (s : AppState) (x y : ℚ) : AppState :=
  match s.dragStartCell with
  | none => s
  | some a =>
    { s with
      cellMap := setCellUnderPoint s.cellMap x y
        (if s.cellMap a.1 a.2 then CellSetAction.CELL_SET_ALIVE
         else CellSetAction.CELL_SET_DEAD) }

/-- `handleSimulationReset` (src/main.c lines 224-231): the loop writes
`isAlive = false` over every cell in traversal order. -/
def handleSimulationReset (g : CellMap) : CellMap :=
  writeAll g cellOrder false

/-- The `SDL_EVENT_MOUSE_BUTTON_DOWN` case of `SDL_AppEvent`
(src/main.c lines 237-243): for the left button, pause, toggle the cell under
the pointer, then start a drag there. -/
def handleMouseButtonDown (s : AppState) (button : Nat) (x y : ℚ) : AppState :=
  if button = SDL_BUTTON_LEFT then
    let s1 : AppState := { s with isPlaying := false }
    let s2 : AppState :=
      { s1 with cellMap := setCellUnderPoint s1.cellMap x y CellSetAction.CELL_TOGGLE }
    handleDragStart s2 x y
  else s

/-- The `SDL_EVENT_MOUSE_MOTION` case of `SDL_AppEvent`
(src/main.c lines 245-250): when the button mask is exactly the left mask,
pause and handle the drag motion. -/
def handleMouseMotion (s : AppState) (buttonState : Nat) (x y : ℚ) : AppState :=
  if buttonState = SDL_BUTTON_LMASK then
    handleDragMotion { s with isPlaying := false } x y
  else s

/-- The `SDL_EVENT_KEY_DOWN` case of `SDL_AppEvent`
(src/main.c lines 252-264). -/
def handleKeyDown (s : AppState) (key : Nat) : AppState :=
  if key = SDLK_P then { s with isPlaying := !s.isPlaying }
  else if key = SDLK_PERIOD then { s with shouldRunFrame := true }
  else if key = SDLK_R then { s with cellMap := handleSimulationReset s.cellMap }
  else s

/-- The clock state: `g_sim.timestamp` (a performance-counter reading) and
the `static double accumulatedSeconds` of `tickSimulationTimer`, both modelled
as exact rationals. -/
structure SimulationTimerState where
  timestamp : ℚ
  accumulatedSeconds : ℚ

/-- `tickSimulationTimer` (src/main.c lines 328-344), parametrized by the
configured rate `fps` and the performance-counter frequency `freq`, taking
the current counter reading `now` as input: accumulate the elapsed seconds,
and when the accumulator strictly exceeds one cycle period, subtract a single
cycle period and report a fixed update as due. -/
def tickSimulationTimer (fps freq : ℚ) (s : SimulationTimerState) (now : ℚ) :
    SimulationTimerState × Bool :=
  let cycleTime := 1 / fps
  let delta := now - s.timestamp
  let acc := s.accumulatedSeconds + delta / freq
  if acc > cycleTime then ({ timestamp := now, accumulatedSeconds := acc - cycleTime }, true)
  else ({ timestamp := now, accumulatedSeconds := acc }, false)

/-- The configured generation rate, the `FPS` macro in src/main.c. -/
def FPS : ℚ := 20

/-- Repeated clock ticks from a fresh accumulator at `t0`, the `n`-th call
presenting the synthetic timestamp `t0 + n * step` (`step` counter ticks
between consecutive calls); returns the state and the due flag after `n`
calls. -/
def clockRun (fps freq t0 step : ℚ) : Nat → SimulationTimerState × Bool
  | 0 => ({ timestamp := t0, accumulatedSeconds := 0 }, false)
  | n + 1 =>
      tickSimulationTimer fps freq (clockRun fps freq t0 step n).1
        (t0 + ((n : ℚ) + 1) * step)

/-- The simulation-advance step of `SDL_AppIterate` (src/main.c lines
354-357), with the due flag `g_sim.isAFixedUpdate` computed by the preceding
`tickSimulationTimer` call taken as an input: when due and either playing or
a single step is pending, clear the single-step flag and advance one
generation. -/
def appIterateSimStep (s : AppState) (isAFixedUpdate : Bool) : AppState :=
  if (s.isPlaying || s.shouldRunFrame) && isAFixedUpdate then
    { s with shouldRunFrame := false, cellMap := simulateConwayIteration s.cellMap }
  else s

/-- A sequence of iterations of the per-frame protocol, one due flag per
iteration. -/
def runIterations (s : AppState) (dues : List Bool) : AppState :=
  dues.foldl appIterateSimStep s

/-- A run of drag-motion events, one pointer position per event. -/
def runDragMotions (s : AppState) (ps : List (ℚ × ℚ)) : AppState :=
  ps.foldl (fun st p => handleDragMotion st p.1 p.2) s

/-- The paint action a drag derives from an anchor liveness value
(src/main.c lines 219-220). -/
def paintAction (b : Bool) : CellSetAction :=
  if b then CellSetAction.CELL_SET_ALIVE else CellSetAction.CELL_SET_DEAD

/-- A concrete all-dead cell map, for witnesses. -/
def emptyCellMap : CellMap := fun _ _ => false

/-- A concrete paused state with a pending single step, for witnesses. -/
def pausedStepState : AppState :=
  { isPlaying := false, shouldRunFrame := true, dragStartCell := none
    cellMap := emptyCellMap }

/-- A concrete playing state with a pending single step, for witnesses. -/
def playingStepState : AppState :=
  { isPlaying := true, shouldRunFrame := true, dragStartCell := none
    cellMap := emptyCellMap }

/-- A concrete fresh timer state, for witnesses. -/
def zeroTimerState : SimulationTimerState :=
  { timestamp := 0, accumulatedSeconds := 0 }

/-! ### Basic facts about the traversal and bulk writes -/

/-- Every cell appears in the loop traversal. -/
theorem mem_cellOrder (c : Coord) : c ∈ cellOrder := by
  simp only [cellOrder, List.mem_flatMap, List.mem_map, List.mem_finRange]
  exact ⟨c.2, trivial, c.1, trivial, rfl⟩

/-- A bulk write of one value reads back as that value on the listed cells
and as the old value elsewhere. -/
theorem writeAll_apply (b : Bool) (l : List Coord) :
    ∀ (g : CellMap) (a : Fin GRID_SIZE_X) (d : Fin GRID_SIZE_Y),
      writeAll g l b a d = if (a, d) ∈ l then b else g a d := by
  induction l with
  | nil => intro g a d; simp [writeAll]
  | cons c t ih =>
    intro g a d
    have hstep : writeAll g (c :: t) b = writeAll (writeCell g c b) t b := rfl
    rw [hstep, ih]
    by_cases ht : (a, d) ∈ t
    · simp [ht, List.mem_cons]
    · by_cases hc : (a, d) = c <;> simp [writeCell, ht, hc, List.mem_cons]

/-- Claim C1: one call to `simulateConwayIteration` gives every cell the
Conway-rule next state computed from the pre-advance grid: all neighbor
counts are evaluated against the state the grid had before the call, the
staged births and deaths are applied only afterwards, and the result at each
cell is exactly `conwayRuleNext` of the old grid (live with fewer than 2 or
more than 3 live neighbors dies, dead with exactly 3 is born, every other
cell keeps its state). -/
theorem conway_iteration_matches_rule :
    ∀ (g : CellMap) (i : Fin GRID_SIZE_X) (j : Fin GRID_SIZE_Y),
      simulateConwayIteration g i j = conwayRuleNext g i j := by
  intro g i j
  unfold simulateConwayIteration
  rw [writeAll_apply, writeAll_apply]
  simp only [List.mem_filter, mem_cellOrder, true_and]
  unfold conwayRuleNext
  cases hg : g i j with
  | false =>
    simp only [shouldDie, shouldBirth, hg, Bool.false_and, Bool.not_false, Bool.true_and]
    by_cases hn : getNumLiveNeighbors g i j = 3 <;> simp [hn]
  | true =>
    simp only [shouldDie, shouldBirth, hg, Bool.true_and, Bool.not_true, Bool.false_and]
    by_cases h2 : getNumLiveNeighbors g i j < 2 <;>
      by_cases h3 : getNumLiveNeighbors g i j > 3 <;> simp [h2, h3]

/-! ### The stored neighbor indices versus the spec's wraparound arithmetic -/

/-- Value of the stored left-neighbor column. -/
theorem leftNeighborIndex_val (i : Fin GRID_SIZE_X) :
    (leftNeighborIndex i).val = if i.val = 0 then GRID_SIZE_X - 1 else i.val - 1 := by
  unfold leftNeighborIndex
  split <;> simp_all

/-- Value of the stored right-neighbor column. -/
theorem rightNeighborIndex_val (i : Fin GRID_SIZE_X) :
    (rightNeighborIndex i).val = if i.val + 1 ≥ GRID_SIZE_X then 0 else i.val + 1 := by
  unfold rightNeighborIndex
  split <;> simp_all

/-- Value of the stored top-neighbor row. -/
theorem topNeighborIndex_val (j : Fin GRID_SIZE_Y) :
    (topNeighborIndex j).val = if j.val = 0 then GRID_SIZE_Y - 1 else j.val - 1 := by
  unfold topNeighborIndex
  split <;> simp_all

/-- Value of the stored bottom-neighbor row. -/
theorem bottomNeighborIndex_val (j : Fin GRID_SIZE_Y) :
    (bottomNeighborIndex j).val = if j.val + 1 ≥ GRID_SIZE_Y then 0 else j.val + 1 := by
  unfold bottomNeighborIndex
  split <;> simp_all

/-- The stored left neighbor is the spec's wrap of `i - 1`. -/
theorem leftNeighborIndex_eq_wrap (i : Fin GRID_SIZE_X) :
    leftNeighborIndex i = wrapX ((i.val : Int) - 1) := by
  have hi := i.isLt
  apply Fin.ext
  rw [leftNeighborIndex_val]
  simp only [wrapX, GRID_SIZE_X] at *
  by_cases h0 : i.val = 0 <;> simp [h0] <;> omega

/-- The stored right neighbor is the spec's wrap of `i + 1`. -/
theorem rightNeighborIndex_eq_wrap (i : Fin GRID_SIZE_X) :
    rightNeighborIndex i = wrapX ((i.val : Int) + 1) := by
  have hi := i.isLt
  apply Fin.ext
  rw [rightNeighborIndex_val]
  simp only [wrapX, GRID_SIZE_X] at *
  by_cases h0 : i.val + 1 ≥ 40 <;> simp [h0] <;> omega

/-- The stored top neighbor is the spec's wrap of `j - 1`. -/
theorem topNeighborIndex_eq_wrap (j : Fin GRID_SIZE_Y) :
    topNeighborIndex j = wrapY ((j.val : Int) - 1) := by
  have hj := j.isLt
  apply Fin.ext
  rw [topNeighborIndex_val]
  simp only [wrapY, GRID_SIZE_Y] at *
  by_cases h0 : j.val = 0 <;> simp [h0] <;> omega

/-- The stored bottom neighbor is the spec's wrap of `j + 1`. -/
theorem bottomNeighborIndex_eq_wrap (j : Fin GRID_SIZE_Y) :
    bottomNeighborIndex j = wrapY ((j.val : Int) + 1) := by
  have hj := j.isLt
  apply Fin.ext
  rw [bottomNeighborIndex_val]
  simp only [wrapY, GRID_SIZE_Y] at *
  by_cases h0 : j.val + 1 ≥ 40 <;> simp [h0] <;> omega

/-- Wrapping an in-range column is the identity. -/
theorem wrapX_self (i : Fin GRID_SIZE_X) : wrapX (i.val : Int) = i := by
  have hi := i.isLt
  apply Fin.ext
  simp only [wrapX, GRID_SIZE_X] at *
  omega

/-- Wrapping an in-range row is the identity. -/
theorem wrapY_self (j : Fin GRID_SIZE_Y) : wrapY (j.val : Int) = j := by
  have hj := j.isLt
  apply Fin.ext
  simp only [wrapY, GRID_SIZE_Y] at *
  omega

/-- Moving left then right is the identity. -/
theorem rightNeighborIndex_leftNeighborIndex (i : Fin GRID_SIZE_X) :
    rightNeighborIndex (leftNeighborIndex i) = i := by
  have hi := i.isLt
  apply Fin.ext
  rw [rightNeighborIndex_val, leftNeighborIndex_val]
  simp only [GRID_SIZE_X] at *
  split_ifs <;> omega

/-- Moving right then left is the identity. -/
theorem leftNeighborIndex_rightNeighborIndex (i : Fin GRID_SIZE_X) :
    leftNeighborIndex (rightNeighborIndex i) = i := by
  have hi := i.isLt
  apply Fin.ext
  rw [leftNeighborIndex_val, rightNeighborIndex_val]
  simp only [GRID_SIZE_X] at *
  by_cases hc : i.val + 1 ≥ 40
  · rw [if_pos hc, if_pos rfl]
    omega
  · rw [if_neg hc, if_neg (by omega)]
    omega

/-- Moving up then down is the identity. -/
theorem bottomNeighborIndex_topNeighborIndex (j : Fin GRID_SIZE_Y) :
    bottomNeighborIndex (topNeighborIndex j) = j := by
  have hj := j.isLt
  apply Fin.ext
  rw [bottomNeighborIndex_val, topNeighborIndex_val]
  simp only [GRID_SIZE_Y] at *
  split_ifs <;> omega

/-- Moving down then up is the identity. -/
theorem topNeighborIndex_bottomNeighborIndex (j : Fin GRID_SIZE_Y) :
    topNeighborIndex (bottomNeighborIndex j) = j := by
  have hj := j.isLt
  apply Fin.ext
  rw [topNeighborIndex_val, bottomNeighborIndex_val]
  simp only [GRID_SIZE_Y] at *
  by_cases hc : j.val + 1 ≥ 40
  · rw [if_pos hc, if_pos rfl]
    omega
  · rw [if_neg hc, if_neg (by omega)]
    omega

/-- Claim C7: every cell's stored neighbor list has exactly 8 pairwise
distinct entries (in bounds by typing), equals the toroidal Moore
neighborhood the spec describes, in its fixed order, and the neighbor
relation is symmetric. In this embedding the list is a pure function of the
coordinates, mirroring that the source writes neighbor pointers only during
init, so no grid operation can change the topology. -/
theorem neighbors_toroidal_topology :
    ∀ (i : Fin GRID_SIZE_X) (j : Fin GRID_SIZE_Y),
      (neighbors i j).length = NUM_CELL_NEIGHBORS ∧
      (neighbors i j).Nodup ∧
      neighbors i j = mooreNeighborhood i j ∧
      (∀ p ∈ neighbors i j, (i, j) ∈ neighbors p.1 p.2) := by
  intro i j
  have hi := i.isLt
  have hj := j.isLt
  have hxL : (leftNeighborIndex i).val ≠ i.val := by
    rw [leftNeighborIndex_val]; simp only [GRID_SIZE_X] at *
    by_cases h0 : i.val = 0 <;> simp [h0] <;> omega
  have hxR : (rightNeighborIndex i).val ≠ i.val := by
    rw [rightNeighborIndex_val]; simp only [GRID_SIZE_X] at *
    by_cases h0 : i.val + 1 ≥ 40 <;> simp [h0] <;> omega
  have hxLR : (leftNeighborIndex i).val ≠ (rightNeighborIndex i).val := by
    rw [leftNeighborIndex_val, rightNeighborIndex_val]; simp only [GRID_SIZE_X] at *
    by_cases h0 : i.val = 0 <;> by_cases h1 : i.val + 1 ≥ 40 <;> simp [h0, h1] <;> omega
  have hyT : (topNeighborIndex j).val ≠ j.val := by
    rw [topNeighborIndex_val]; simp only [GRID_SIZE_Y] at *
    by_cases h0 : j.val = 0 <;> simp [h0] <;> omega
  have hyB : (bottomNeighborIndex j).val ≠ j.val := by
    rw [bottomNeighborIndex_val]; simp only [GRID_SIZE_Y] at *
    by_cases h0 : j.val + 1 ≥ 40 <;> simp [h0] <;> omega
  have hyTB : (topNeighborIndex j).val ≠ (bottomNeighborIndex j).val := by
    rw [topNeighborIndex_val, bottomNeighborIndex_val]; simp only [GRID_SIZE_Y] at *
    by_cases h0 : j.val = 0 <;> by_cases h1 : j.val + 1 ≥ 40 <;> simp [h0, h1] <;> omega
  refine ⟨rfl, ?_, ?_, ?_⟩
  · simp only [neighbors, List.nodup_cons, List.mem_cons, List.mem_singleton,
      List.not_mem_nil, List.nodup_nil, and_true, not_or, Prod.mk.injEq, Fin.ext_iff,
      not_and, ne_eq, true_implies, not_false_eq_true]
    omega
  · simp only [mooreNeighborhood, ← leftNeighborIndex_eq_wrap, ← rightNeighborIndex_eq_wrap,
      ← topNeighborIndex_eq_wrap, ← bottomNeighborIndex_eq_wrap, wrapX_self, wrapY_self,
      neighbors]
  · intro p hp
    fin_cases hp <;>
      simp [neighbors, List.mem_cons, rightNeighborIndex_leftNeighborIndex,
        leftNeighborIndex_rightNeighborIndex, bottomNeighborIndex_topNeighborIndex,
        topNeighborIndex_bottomNeighborIndex]

/-! ### Reset and input events -/

/-- After the reset loop every cell reads dead. -/
theorem handleSimulationReset_apply (g : CellMap) (a : Fin GRID_SIZE_X) (d : Fin GRID_SIZE_Y) :
    handleSimulationReset g a d = false := by
  rw [handleSimulationReset, writeAll_apply]
  simp [mem_cellOrder]

set_option maxRecDepth 4000 in
/-- Claim C8: the reset key clears every cell to dead — afterwards no cell
reports alive and every live-neighbor count is 0 — and leaves the play/pause
flag unchanged, whatever it was. -/
theorem reset_clears_cells_keeps_play_state :
    ∀ (s : AppState),
      (handleKeyDown s SDLK_R).isPlaying = s.isPlaying ∧
      (∀ (i : Fin GRID_SIZE_X) (j : Fin GRID_SIZE_Y),
        (handleKeyDown s SDLK_R).cellMap i j = false) ∧
      (∀ (i : Fin GRID_SIZE_X) (j : Fin GRID_SIZE_Y),
        getNumLiveNeighbors (handleKeyDown s SDLK_R).cellMap i j = 0) := by
  intro s
  have hkey : handleKeyDown s SDLK_R = { s with cellMap := handleSimulationReset s.cellMap } := by
    unfold handleKeyDown SDLK_P SDLK_PERIOD SDLK_R
    norm_num
  rw [hkey]
  refine ⟨rfl, ?_, ?_⟩
  · intro i j
    exact handleSimulationReset_apply s.cellMap i j
  · intro i j
    simp only [getNumLiveNeighbors, List.countP_eq_zero]
    intro c _
    simp [handleSimulationReset_apply]

/-- A drag motion never changes the play flag. -/
theorem handleDragMotion_isPlaying (s : AppState) (x y : ℚ) :
    (handleDragMotion s x y).isPlaying = s.isPlaying := by
  cases h : s.dragStartCell <;> simp [handleDragMotion, h]

/-- A drag motion never changes the drag anchor. -/
theorem handleDragMotion_dragStartCell (s : AppState) (x y : ℚ) :
    (handleDragMotion s x y).dragStartCell = s.dragStartCell := by
  cases h : s.dragStartCell <;> simp [handleDragMotion, h]

/-- Claim C9: a mouse-motion event whose button mask is exactly the
left-button mask always sets `isPlaying` to false, for every state — with or
without a drag anchor, and whether or not any cell lies under the pointer. -/
theorem left_mask_motion_pauses :
    ∀ (s : AppState) (x y : ℚ),
      (handleMouseMotion s SDL_BUTTON_LMASK x y).isPlaying = false := by
  intro s x y
  unfold handleMouseMotion
  rw [if_pos rfl, handleDragMotion_isPlaying]

/-! ### Single-cell writes and the pointer lookup -/

/-- A single-cell write reads back at the written cell. -/
theorem writeCell_self (g : CellMap) (c : Coord) (b : Bool) :
    writeCell g c b c.1 c.2 = b := by
  simp [writeCell]

/-- A single-cell write leaves every other cell unchanged. -/
theorem writeCell_other (g : CellMap) (c : Coord) (b : Bool) (d : Coord) (h : d ≠ c) :
    writeCell g c b d.1 d.2 = g d.1 d.2 := by
  simp [writeCell, h]

/-- With no cell under the point, `setCellUnderPoint` is the identity. -/
theorem setCellUnderPoint_none (g : CellMap) (x y : ℚ) (action : CellSetAction)
    (h : getCellUnderPoint x y = none) :
    setCellUnderPoint g x y action = g := by
  simp [setCellUnderPoint, h]

/-- Toggling through the pointer writes the negation at the found cell. -/
theorem setCellUnderPoint_toggle_some (g : CellMap) (x y : ℚ) (c : Coord)
    (h : getCellUnderPoint x y = some c) :
    setCellUnderPoint g x y CellSetAction.CELL_TOGGLE = writeCell g c (!(g c.1 c.2)) := by
  simp [setCellUnderPoint, h]

/-- Painting through the pointer writes the painted value at the found cell. -/
theorem setCellUnderPoint_paint_some (g : CellMap) (x y : ℚ) (c : Coord) (b : Bool)
    (h : getCellUnderPoint x y = some c) :
    setCellUnderPoint g x y (paintAction b) = writeCell g c b := by
  cases b <;> simp [setCellUnderPoint, paintAction, h]

/-- Claim C5: a left-button pointer-down pauses the simulation, toggles
exactly the cell whose rectangle contains the pointer (nothing changes when
no rectangle does), and anchors the drag at that same cell, so the anchor's
stored liveness seen by later drag motions is the post-toggle state. -/
theorem left_pointer_down_toggles_pauses_anchors :
    ∀ (s : AppState) (x y : ℚ),
      ((handleMouseButtonDown s SDL_BUTTON_LEFT x y).isPlaying = false) ∧
      ((handleMouseButtonDown s SDL_BUTTON_LEFT x y).dragStartCell = getCellUnderPoint x y) ∧
      (getCellUnderPoint x y = none →
        (handleMouseButtonDown s SDL_BUTTON_LEFT x y).cellMap = s.cellMap) ∧
      (∀ c : Coord, getCellUnderPoint x y = some c →
        ((handleMouseButtonDown s SDL_BUTTON_LEFT x y).cellMap c.1 c.2 = !(s.cellMap c.1 c.2)) ∧
        (∀ d : Coord, d ≠ c →
          (handleMouseButtonDown s SDL_BUTTON_LEFT x y).cellMap d.1 d.2 = s.cellMap d.1 d.2)) := by
  intro s x y
  have hdown : handleMouseButtonDown s SDL_BUTTON_LEFT x y =
      { s with isPlaying := false
               cellMap := setCellUnderPoint s.cellMap x y CellSetAction.CELL_TOGGLE
               dragStartCell := getCellUnderPoint x y } := by
    simp [handleMouseButtonDown, handleDragStart]
  rw [hdown]
  refine ⟨rfl, rfl, ?_, ?_⟩
  · intro h
    simp [setCellUnderPoint_none s.cellMap x y CellSetAction.CELL_TOGGLE h]
  · intro c hc
    constructor
    · simp only [setCellUnderPoint_toggle_some s.cellMap x y c hc]
      exact writeCell_self s.cellMap c (!(s.cellMap c.1 c.2))
    · intro d hd
      simp only [setCellUnderPoint_toggle_some s.cellMap x y c hc]
      exact writeCell_other s.cellMap c (!(s.cellMap c.1 c.2)) d hd

/-! ### Drag painting -/

/-- With an anchor, a drag motion paints with the anchor's current liveness. -/
theorem handleDragMotion_some (s : AppState) (x y : ℚ) (a : Coord)
    (h : s.dragStartCell = some a) :
    handleDragMotion s x y =
      { s with cellMap := setCellUnderPoint s.cellMap x y (paintAction (s.cellMap a.1 a.2)) } := by
  simp [handleDragMotion, h, paintAction]

/-- Painting value `b` preserves every cell already holding `b`. -/
theorem setCellUnderPoint_paint_keeps (g : CellMap) (x y : ℚ) (b : Bool) (c : Coord)
    (hc : g c.1 c.2 = b) :
    setCellUnderPoint g x y (paintAction b) c.1 c.2 = b := by
  cases hl : getCellUnderPoint x y with
  | none => rw [setCellUnderPoint_none g x y (paintAction b) hl, hc]
  | some e =>
    rw [setCellUnderPoint_paint_some g x y e b hl]
    by_cases hce : (c.1, c.2) = e
    · simp [writeCell, hce]
    · simp [writeCell, hce, hc]

/-- Invariant of a run of drag motions from an anchor holding value `b`: the
anchor and its value persist, cells already at `b` stay at `b`, and every
dragged-over cell ends at `b`. -/
theorem dragRun_paints (b : Bool) :
    ∀ (ps : List (ℚ × ℚ)) (s : AppState) (a : Coord),
      s.dragStartCell = some a → s.cellMap a.1 a.2 = b →
      ((runDragMotions s ps).dragStartCell = some a ∧
       (runDragMotions s ps).cellMap a.1 a.2 = b ∧
       (∀ c : Coord, s.cellMap c.1 c.2 = b → (runDragMotions s ps).cellMap c.1 c.2 = b) ∧
       (∀ (c : Coord) (p : ℚ × ℚ), p ∈ ps → getCellUnderPoint p.1 p.2 = some c →
          (runDragMotions s ps).cellMap c.1 c.2 = b)) := by
  intro ps
  induction ps with
  | nil =>
    intro s a ha hb
    refine ⟨ha, hb, fun c hc => hc, fun c p hp => absurd hp (List.not_mem_nil p)⟩
  | cons p t ih =>
    intro s a ha hb
    have hstep : runDragMotions s (p :: t) = runDragMotions (handleDragMotion s p.1 p.2) t := rfl
    have hmot := handleDragMotion_some s p.1 p.2 a ha
    have h1drag : (handleDragMotion s p.1 p.2).dragStartCell = some a := by
      rw [handleDragMotion_dragStartCell, ha]
    have h1keep : ∀ c : Coord, s.cellMap c.1 c.2 = b →
        (handleDragMotion s p.1 p.2).cellMap c.1 c.2 = b := by
      intro c hc
      rw [hmot]
      rw [hb]
      exact setCellUnderPoint_paint_keeps s.cellMap p.1 p.2 b c hc
    have h1painted : ∀ c : Coord, getCellUnderPoint p.1 p.2 = some c →
        (handleDragMotion s p.1 p.2).cellMap c.1 c.2 = b := by
      intro c hc
      rw [hmot]
      rw [hb]
      rw [setCellUnderPoint_paint_some s.cellMap p.1 p.2 c b hc]
      exact writeCell_self s.cellMap c b
    have h1a : (handleDragMotion s p.1 p.2).cellMap a.1 a.2 = b := h1keep a hb
    obtain ⟨ih1, ih2, ih3, ih4⟩ := ih (handleDragMotion s p.1 p.2) a h1drag h1a
    rw [hstep]
    refine ⟨ih1, ih2, ?_, ?_⟩
    · intro c hc
      exact ih3 c (h1keep c hc)
    · intro c q hq hcq
      rcases List.mem_cons.mp hq with hq1 | hq2
      · subst hq1
        exact ih3 c (h1painted c hcq)
      · exact ih4 c q hq2 hcq

/-- Claim C6: a drag motion without an anchor changes nothing; with an
anchor it applies paint-alive when the anchor is currently alive and
paint-dead when dead, so a whole drag from a live anchor leaves every
dragged-over cell alive (not toggled) and a drag from a dead anchor leaves
every dragged-over cell dead. -/
theorem drag_motion_paints_anchor_state :
    ∀ (s : AppState) (x y : ℚ),
      (s.dragStartCell = none → handleDragMotion s x y = s) ∧
      (∀ a : Coord, s.dragStartCell = some a →
        (handleDragMotion s x y).cellMap =
          setCellUnderPoint s.cellMap x y (paintAction (s.cellMap a.1 a.2))) ∧
      (∀ a : Coord, s.dragStartCell = some a → s.cellMap a.1 a.2 = true →
        ∀ (ps : List (ℚ × ℚ)) (c : Coord),
          (∃ p ∈ ps, getCellUnderPoint p.1 p.2 = some c) →
          (runDragMotions s ps).cellMap c.1 c.2 = true) ∧
      (∀ a : Coord, s.dragStartCell = some a → s.cellMap a.1 a.2 = false →
        ∀ (ps : List (ℚ × ℚ)) (c : Coord),
          (∃ p ∈ ps, getCellUnderPoint p.1 p.2 = some c) →
          (runDragMotions s ps).cellMap c.1 c.2 = false) := by
  intro s x y
  refine ⟨?_, ?_, ?_, ?_⟩
  · intro h
    simp [handleDragMotion, h]
  · intro a ha
    rw [handleDragMotion_some s x y a ha]
  · intro a ha hb ps c hex
    obtain ⟨p, hp, hpc⟩ := hex
    obtain ⟨_, _, _, h4⟩ := dragRun_paints true ps s a ha hb
    exact h4 c p hp hpc
  · intro a ha hb ps c hex
    obtain ⟨p, hp, hpc⟩ := hex
    obtain ⟨_, _, _, h4⟩ := dragRun_paints false ps s a ha hb
    exact h4 c p hp hpc

/-! ### The per-iteration orchestrator protocol -/

/-- Paused with no pending step, iterations leave the state unchanged. -/
theorem runIterations_idle :
    ∀ (dues : List Bool) (s : AppState), s.isPlaying = false → s.shouldRunFrame = false →
      runIterations s dues = s := by
  intro dues
  induction dues with
  | nil => intro s _ _; rfl
  | cons d t ih =>
    intro s h1 h2
    have hone : appIterateSimStep s d = s := by
      simp [appIterateSimStep, h1, h2]
    have hstep : runIterations s (d :: t) = runIterations (appIterateSimStep s d) t := rfl
    rw [hstep, hone, ih s h1 h2]

/-- Core of claim C4: paused with one pending single step, a run of
iterations advances exactly once as soon as some tick is due, clears the
flag exactly then, and never resumes play. -/
theorem pausedRun :
    ∀ (dues : List Bool) (s : AppState), s.isPlaying = false → s.shouldRunFrame = true →
      ((runIterations s dues).cellMap =
        (if dues.contains true then simulateConwayIteration s.cellMap else s.cellMap)) ∧
      ((runIterations s dues).shouldRunFrame = !(dues.contains true)) ∧
      ((runIterations s dues).isPlaying = false) := by
  intro dues
  induction dues with
  | nil => intro s h1 h2; simp [runIterations, h1, h2]
  | cons d t ih =>
    intro s h1 h2
    have hstep : runIterations s (d :: t) = runIterations (appIterateSimStep s d) t := rfl
    cases d with
    | true =>
      have hone : appIterateSimStep s true =
          { s with shouldRunFrame := false, cellMap := simulateConwayIteration s.cellMap } := by
        simp [appIterateSimStep, h2]
      have hidle : runIterations
          { s with shouldRunFrame := false, cellMap := simulateConwayIteration s.cellMap } t =
          { s with shouldRunFrame := false, cellMap := simulateConwayIteration s.cellMap } :=
        runIterations_idle t _ h1 rfl
      rw [hstep, hone, hidle]
      simp [h1]
    | false =>
      have hone : appIterateSimStep s false = s := by
        simp [appIterateSimStep]
      rw [hstep, hone]
      obtain ⟨ihc, ihf, ihp⟩ := ih s h1 h2
      refine ⟨?_, ?_, ihp⟩
      · rw [ihc]
        simp [List.contains_cons]
      · rw [ihf]
        simp [List.contains_cons]

/-- Claim C4: if the simulation is paused and exactly one single step is
pending, then along every prefix of a subsequent run of iterations the
generation has advanced exactly once when some due tick has occurred in that
prefix and not at all otherwise — so the advance happens at the first due
tick, the flag is cleared by that advance, no later due tick advances again,
and the simulation stays paused. -/
theorem paused_single_step_exactly_once :
    ∀ (s : AppState) (dues : List Bool), s.isPlaying = false → s.shouldRunFrame = true →
      ∀ k : Nat,
        ((runIterations s (dues.take k)).cellMap =
          (if (dues.take k).contains true then simulateConwayIteration s.cellMap
           else s.cellMap)) ∧
        ((runIterations s (dues.take k)).shouldRunFrame = !((dues.take k).contains true)) ∧
        ((runIterations s (dues.take k)).isPlaying = false) := by
  intro s dues h1 h2 k
  exact pausedRun (dues.take k) s h1 h2

/-- Witness for claim C4 at a concrete paused state and due sequence. -/
theorem paused_single_step_exactly_once_witness :
    pausedStepState.isPlaying = false ∧ pausedStepState.shouldRunFrame = true ∧
    (((runIterations pausedStepState ([false, true, true].take 3)).cellMap =
      (if ([false, true, true].take 3).contains true
       then simulateConwayIteration pausedStepState.cellMap else pausedStepState.cellMap)) ∧
     ((runIterations pausedStepState ([false, true, true].take 3)).shouldRunFrame =
       !(([false, true, true].take 3).contains true)) ∧
     ((runIterations pausedStepState ([false, true, true].take 3)).isPlaying = false)) :=
  ⟨rfl, rfl, paused_single_step_exactly_once pausedStepState [false, true, true] rfl rfl 3⟩

/-- Core of claim C10: while playing, a run of iterations advances the
generation once per due tick whatever the single-step flag holds, and the
first due tick clears the flag. -/
theorem playingRun :
    ∀ (dues : List Bool) (s : AppState), s.isPlaying = true →
      ((runIterations s dues).cellMap =
        Nat.iterate simulateConwayIteration (dues.count true) s.cellMap) ∧
      ((runIterations s dues).shouldRunFrame = (s.shouldRunFrame && !(dues.contains true))) ∧
      ((runIterations s dues).isPlaying = true) := by
  intro dues
  induction dues with
  | nil => intro s h1; simp [runIterations, h1]
  | cons d t ih =>
    intro s h1
    have hstep : runIterations s (d :: t) = runIterations (appIterateSimStep s d) t := rfl
    cases d with
    | true =>
      have hone : appIterateSimStep s true =
          { s with shouldRunFrame := false, cellMap := simulateConwayIteration s.cellMap } := by
        simp [appIterateSimStep, h1]
      rw [hstep, hone]
      obtain ⟨ihc, ihf, ihp⟩ :=
        ih { s with shouldRunFrame := false, cellMap := simulateConwayIteration s.cellMap } h1
      refine ⟨?_, ?_, ihp⟩
      · rw [ihc]
        simp [List.count_cons, Function.iterate_succ_apply]
      · rw [ihf]
        simp
    | false =>
      have hone : appIterateSimStep s false = s := by
        simp [appIterateSimStep]
      rw [hstep, hone]
      obtain ⟨ihc, ihf, ihp⟩ := ih s h1
      refine ⟨?_, ?_, ihp⟩
      · rw [ihc]
        simp [List.count_cons]
      · rw [ihf]
        simp [List.contains_cons]

/-- Claim C10: if the simulation is playing and a single step was requested,
the run of iterations advances the generation exactly once per due tick —
the same advances ordinary play performs, as the run from the same state
with the flag already clear shows — so the request causes no extra advance,
and the first due tick clears the flag. -/
theorem playing_single_step_no_extra_advance :
    ∀ (s : AppState) (dues : List Bool), s.isPlaying = true →
      ((runIterations s dues).cellMap =
        Nat.iterate simulateConwayIteration (dues.count true) s.cellMap) ∧
      ((runIterations s dues).cellMap =
        (runIterations { s with shouldRunFrame := false } dues).cellMap) ∧
      ((runIterations s dues).shouldRunFrame = (s.shouldRunFrame && !(dues.contains true))) ∧
      ((runIterations s dues).isPlaying = true) := by
  intro s dues h1
  obtain ⟨hc, hf, hp⟩ := playingRun dues s h1
  obtain ⟨hc2, _, _⟩ := playingRun dues { s with shouldRunFrame := false } h1
  refine ⟨hc, ?_, hf, hp⟩
  rw [hc, hc2]

/-- Witness for claim C10 at a concrete playing state and due sequence. -/
theorem playing_single_step_no_extra_advance_witness :
    playingStepState.isPlaying = true ∧
    (((runIterations playingStepState [false, true, true]).cellMap =
        Nat.iterate simulateConwayIteration ([false, true, true].count true)
          playingStepState.cellMap) ∧
     ((runIterations playingStepState [false, true, true]).cellMap =
        (runIterations { playingStepState with shouldRunFrame := false }
          [false, true, true]).cellMap) ∧
     ((runIterations playingStepState [false, true, true]).shouldRunFrame =
        (playingStepState.shouldRunFrame && !([false, true, true].contains true))) ∧
     ((runIterations playingStepState [false, true, true]).isPlaying = true)) :=
  ⟨rfl, playing_single_step_no_extra_advance playingStepState [false, true, true] rfl⟩

/-! ### The fixed-timestep clock -/

/-- Claim C2 counterexample: from a fresh clock (timestamp 0, accumulator 0,
`fps = 20`, counter frequency 1) a single tick at the monotonically later
timestamp 1 fires, yet leaves `accumulatedSeconds = 19/20`, which is not
below the cycle period `1/20`: a tick that fires subtracts only one cycle
period, so the claimed unconditional bound fails after a long gap. -/
theorem tick_fire_excess_counterexample :
    (tickSimulationTimer 20 1 zeroTimerState 1).2 = true ∧
    ¬((tickSimulationTimer 20 1 zeroTimerState 1).1.accumulatedSeconds < 1 / 20) := by
  constructor
  · norm_num [tickSimulationTimer, zeroTimerState]
  · norm_num [tickSimulationTimer, zeroTimerState]

/-- Claim C2 (amended): immediately after a tick that fires the accumulator
is nonnegative, and it is below one cycle period provided the accumulated
time entering the comparison was below two cycle periods; the unconditional
upper bound of the original claim fails because a single firing call
subtracts only one cycle period (see the counterexample). -/
theorem tick_fire_accumulator_bounds :
    ∀ (fps freq : ℚ) (s : SimulationTimerState) (now : ℚ),
      (tickSimulationTimer fps freq s now).2 = true →
      (0 ≤ (tickSimulationTimer fps freq s now).1.accumulatedSeconds ∧
       (s.accumulatedSeconds + (now - s.timestamp) / freq < 2 * (1 / fps) →
         (tickSimulationTimer fps freq s now).1.accumulatedSeconds < 1 / fps)) := by
  intro fps freq s now hfire
  simp only [tickSimulationTimer] at hfire ⊢
  by_cases hgt : s.accumulatedSeconds + (now - s.timestamp) / freq > 1 / fps
  · rw [if_pos hgt] at hfire ⊢
    constructor
    · simp only
      linarith
    · intro h2
      simp only
      linarith
  · rw [if_neg hgt] at hfire
    simp at hfire

/-- Witness for the amended claim C2 at a concrete firing tick. -/
theorem tick_fire_accumulator_bounds_witness :
    (tickSimulationTimer 20 1 zeroTimerState 1).2 = true ∧
    (0 ≤ (tickSimulationTimer 20 1 zeroTimerState 1).1.accumulatedSeconds ∧
     (zeroTimerState.accumulatedSeconds + ((1 : ℚ) - zeroTimerState.timestamp) / 1 < 2 * (1 / 20) →
       (tickSimulationTimer 20 1 zeroTimerState 1).1.accumulatedSeconds < 1 / 20)) :=
  ⟨by norm_num [tickSimulationTimer, zeroTimerState],
   tick_fire_accumulator_bounds 20 1 zeroTimerState 1
     (by norm_num [tickSimulationTimer, zeroTimerState])⟩

/-- Claim C3 counterexample: stepping the fresh clock by exactly one cycle
period per call (`fps = 20`, counter frequency 20, one counter tick per
call), the first call returns due = false, not true, and leaves the
accumulator at a full cycle period `1/20`, not 0: the due comparison is
strict, so a single exact cycle does not fire. -/
theorem clock_exact_step_first_call_not_due :
    (clockRun 20 20 0 1 1).2 = false ∧
    (clockRun 20 20 0 1 1).1.accumulatedSeconds = 1 / 20 := by
  constructor
  · norm_num [clockRun, tickSimulationTimer]
  · norm_num [clockRun, tickSimulationTimer]

/-- Claim C3 (amended): with timestamps advancing by exactly one cycle
period (`freq / fps` counter ticks) per call from a fresh accumulator, the
first call returns due = false and every later call returns due = true, and
after every call the accumulator holds exactly one full cycle period `1/fps`
rather than approximately 0: because the due comparison is strict, the
accumulator stabilizes at `cyclePeriod` under exact arithmetic. -/
theorem clock_exact_step_run :
    ∀ (fps freq t0 : ℚ) (n : Nat), 0 < fps → 0 < freq →
      ((clockRun fps freq t0 (freq / fps) n).1.timestamp = t0 + (n : ℚ) * (freq / fps)) ∧
      ((clockRun fps freq t0 (freq / fps) n).1.accumulatedSeconds =
        (if n = 0 then 0 else 1 / fps)) ∧
      ((clockRun fps freq t0 (freq / fps) n).2 = decide (2 ≤ n)) := by
  intro fps freq t0 n hfps hfreq
  have hfps0 : fps ≠ 0 := ne_of_gt hfps
  have hfreq0 : freq ≠ 0 := ne_of_gt hfreq
  have hdiv : (freq / fps) / freq = 1 / fps := by
    field_simp
    ring
  induction n with
  | zero => simp [clockRun]
  | succ m ih =>
    obtain ⟨ihts, ihacc, ihdue⟩ := ih
    have hstep : clockRun fps freq t0 (freq / fps) (m + 1) =
        tickSimulationTimer fps freq (clockRun fps freq t0 (freq / fps) m).1
          (t0 + ((m : ℚ) + 1) * (freq / fps)) := rfl
    rw [hstep]
    simp only [tickSimulationTimer, ihts, ihacc]
    have hdelta : t0 + ((m : ℚ) + 1) * (freq / fps) - (t0 + (m : ℚ) * (freq / fps)) =
        freq / fps := by ring
    rw [hdelta, hdiv]
    by_cases hm : m = 0
    · subst hm
      rw [if_pos rfl]
      rw [zero_add]
      rw [if_neg (lt_irrefl (1 / fps))]
      refine ⟨?_, ?_, ?_⟩
      · push_cast
        ring
      · rw [if_neg (Nat.succ_ne_zero 0)]
      · simp
    · rw [if_neg hm]
      have hpos : 0 < 1 / fps := by positivity
      rw [if_pos (by linarith : 1 / fps < 1 / fps + 1 / fps)]
      refine ⟨?_, ?_, ?_⟩
      · push_cast
        ring
      · rw [if_neg (Nat.succ_ne_zero m)]
        ring
      · symm
        rw [decide_eq_true_eq]
        omega

/-- Witness for the amended claim C3 at a concrete run of two exact-cycle
calls. -/
theorem clock_exact_step_run_witness :
    (0 : ℚ) < 20 ∧ (0 : ℚ) < 20 ∧
    (((clockRun 20 20 0 ((20 : ℚ) / 20) 2).1.timestamp = 0 + ((2 : Nat) : ℚ) * ((20 : ℚ) / 20)) ∧
     ((clockRun 20 20 0 ((20 : ℚ) / 20) 2).1.accumulatedSeconds =
       (if (2 : Nat) = 0 then 0 else 1 / 20)) ∧
     ((clockRun 20 20 0 ((20 : ℚ) / 20) 2).2 = decide (2 ≤ (2 : Nat)))) :=
  ⟨by norm_num, by norm_num,
   clock_exact_step_run 20 20 0 2 (by norm_num) (by norm_num)⟩
